import Mathlib

/-!
Verification of the NekoBot core client (`neko_bot/core/nekobot.py`):
a shallow embedding of the staff registry, the command-registration
filter composition, the shutdown sequence, the error handling of
`begin`, and the constructor's keyword-argument handling, with proofs
of the specified properties.
-/

namespace NekoBot

/-! ## Staff registry

`NekoBot.staff` is a Python dict mapping rank names to values: the
`"owner"` key holds a single integer identifier (set in `__init__` from
`Config.OWNER_ID`), while `"dev"` and `"sudo"` hold lists of integer
identifiers (populated by `_load_staff`).  We embed a dict value as a
`StaffVal` and the dict itself as a partial map from strings, `none`
standing for an absent key (a lookup of which raises `KeyError`). -/

/-- A value stored in the `staff` dict: either the single owner id
(an `int` in Python, which has no `append` method) or a list of ids. -/
inductive StaffVal where
  | ownerId : Int → StaffVal
  | ids : List Int → StaffVal
  deriving DecidableEq, Repr

/-- The `staff` dict: a partial map from rank names to stored values. -/
def StaffMap : Type := String → Option StaffVal

/-- The staff dict as `__init__` leaves it:
`self.staff["owner"] = Config.OWNER_ID`, no other keys present. -/
def initStaff (owner : Int) : StaffMap :=
  fun k => if k = "owner" then some (.ownerId owner) else none

/-- A record of the `"STAFF"` collection: each has at least an `_id`
(the user identifier) and a `rank` field. -/
structure Record where
  rank : String
  idField : Int
  deriving DecidableEq, Repr

/-- The errors Python can raise inside the `_load_staff` loop body
`self.staff[i["rank"]].append(i["_id"])`: a `KeyError` when the rank is
not a key of the dict, an `AttributeError` when the stored value is the
integer owner id (ints have no `append`). -/
inductive LoadErr where
  | keyError
  | attributeError
  deriving DecidableEq, Repr

/-- One iteration of the `_load_staff` loop:
`self.staff[i["rank"]].append(i["_id"])`.  Looks up the record's rank in
the dict and appends the record's id to the stored list, failing as
Python would on a missing key or a non-list value. -/
def loadStep (st : StaffMap) (r : Record) : Except LoadErr StaffMap :=
  match st r.rank with
  | none => .error .keyError
  | some (.ownerId _) => .error .attributeError
  | some (.ids l) =>
      .ok (fun k => if k = r.rank then some (.ids (l ++ [r.idField])) else st k)

/-- The `async for` loop of `_load_staff`: records are processed in
iteration order, and an error aborts the loop and propagates. -/
def loadLoop (st : StaffMap) : List Record → Except LoadErr StaffMap
  | [] => .ok st
  | r :: rs =>
      match loadStep st r with
      | .error e => .error e
      | .ok st2 => loadLoop st2 rs

/-- `_load_staff`: `self.staff.update({'dev': [], 'sudo': []})`, then the
`async for` loop appending each record's id under its rank.  The record
list is the sequence in which the cursor yields the collection's
records. -/
def loadStaff (st : StaffMap) (records : List Record) : Except LoadErr StaffMap :=
  loadLoop
    (fun k =>
      if k = "dev" then some (.ids []) else
      if k = "sudo" then some (.ids []) else st k)
    records

/-- The `staff_id` property:
`_id = [self.staff["owner"]]; _id.extend(self.staff["dev"] + self.staff["sudo"])`.
Returns `none` when the dict does not have the expected shape (Python
would raise a `KeyError` there). -/
def staffId (st : StaffMap) : Option (List Int) :=
  match st "owner", st "dev", st "sudo" with
  | some (.ownerId o), some (.ids d), some (.ids s) => some (o :: (d ++ s))
  | _, _, _ => none

/-- A record whose rank keys one of the two list-valued entries. -/
def goodRecord (r : Record) : Prop := r.rank = "dev" ∨ r.rank = "sudo"

instance (r : Record) : Decidable (goodRecord r) := by
  unfold goodRecord; infer_instance

/-- The ids of the records of a given rank, in iteration order. -/
def idsOfRank (rank : String) (records : List Record) : List Int :=
  (records.filter (fun r => r.rank = rank)).map Record.idField

/-- A staff dict with exactly the shape the code produces: an integer
owner, list-valued `"dev"` and `"sudo"` entries, and no other keys. -/
structure Shaped (st : StaffMap) (o : Int) (d s : List Int) : Prop where
  hOwner : st "owner" = some (.ownerId o)
  hDev : st "dev" = some (.ids d)
  hSud : st "sudo" = some (.ids s)
  hOther : ∀ k, k ≠ "owner" → k ≠ "dev" → k ≠ "sudo" → st k = none

theorem loadStep_dev {st : StaffMap} {o : Int} {d s : List Int}
    (hst : Shaped st o d s) {r : Record} (h : r.rank = "dev") :
    loadStep st r =
      .ok (fun k => if k = "dev" then some (.ids (d ++ [r.idField])) else st k) := by
  simp [loadStep, h, hst.hDev]

theorem loadStep_sud {st : StaffMap} {o : Int} {d s : List Int}
    (hst : Shaped st o d s) {r : Record} (h : r.rank = "sudo") :
    loadStep st r =
      .ok (fun k => if k = "sudo" then some (.ids (s ++ [r.idField])) else st k) := by
  simp [loadStep, h, hst.hSud]

theorem loadLoop_good {records : List Record}
    (hgood : ∀ r ∈ records, goodRecord r) :
    ∀ (st : StaffMap) (o : Int) (d s : List Int), Shaped st o d s →
    ∃ st2, loadLoop st records = .ok st2 ∧
      Shaped st2 o (d ++ idsOfRank "dev" records) (s ++ idsOfRank "sudo" records) := by
  induction records with
  | nil =>
      intro st o d s hst
      exact ⟨st, rfl, by simpa [idsOfRank] using hst⟩
  | cons r rs ih =>
      intro st o d s hst
      have hr : goodRecord r := hgood r (by simp)
      have hrs : ∀ x ∈ rs, goodRecord x := fun x hx => hgood x (by simp [hx])
      rcases hr with h | h
      · have hst2 : Shaped
            (fun k => if k = "dev" then some (.ids (d ++ [r.idField])) else st k)
            o (d ++ [r.idField]) s :=
          ⟨by simp [hst.hOwner], by simp, by simp [hst.hSud],
            fun k hk1 hk2 hk3 => by simp [hk2, hst.hOther k hk1 hk2 hk3]⟩
        obtain ⟨st3, hloop, hshape⟩ := ih hrs _ o (d ++ [r.idField]) s hst2
        refine ⟨st3, ?_, ?_⟩
        · rw [loadLoop, loadStep_dev hst h]; exact hloop
        · have hne : r.rank ≠ "sudo" := by rw [h]; decide
          simpa [idsOfRank, h, hne, List.append_assoc] using hshape
      · have hst2 : Shaped
            (fun k => if k = "sudo" then some (.ids (s ++ [r.idField])) else st k)
            o d (s ++ [r.idField]) :=
          ⟨by simp [hst.hOwner], by simp [hst.hDev], by simp,
            fun k hk1 hk2 hk3 => by simp [hk3, hst.hOther k hk1 hk2 hk3]⟩
        obtain ⟨st3, hloop, hshape⟩ := ih hrs _ o d (s ++ [r.idField]) hst2
        refine ⟨st3, ?_, ?_⟩
        · rw [loadLoop, loadStep_sud hst h]; exact hloop
        · have hne : r.rank ≠ "dev" := by rw [h]; decide
          simpa [idsOfRank, h, hne, List.append_assoc] using hshape

theorem loadStaff_good (st : StaffMap) (o : Int)
    (howner : st "owner" = some (.ownerId o))
    (honly : ∀ k, k ≠ "owner" → k ≠ "dev" → k ≠ "sudo" → st k = none)
    {records : List Record} (hgood : ∀ r ∈ records, goodRecord r) :
    ∃ st2, loadStaff st records = .ok st2 ∧
      Shaped st2 o (idsOfRank "dev" records) (idsOfRank "sudo" records) := by
  have hshape : Shaped
      (fun k =>
        if k = "dev" then some (.ids []) else
        if k = "sudo" then some (.ids []) else st k) o [] [] :=
    ⟨by simpa using howner, by simp, by simp,
      fun k hk1 hk2 hk3 => by simp [hk2, hk3, honly k hk1 hk2 hk3]⟩
  obtain ⟨st2, hloop, hsh⟩ := loadLoop_good hgood _ o [] [] hshape
  exact ⟨st2, hloop, by simpa using hsh⟩

/-- **C1.** For every staff-record sequence with ranks in
`{"dev","sudo"}` and every configured owner id, `_load_staff` succeeds
and `staff_id` then returns exactly the owner followed by all `"dev"`
ids then all `"sudo"` ids, in iteration order, duplicates preserved. -/
theorem staffId_after_load (o : Int) (records : List Record)
    (hgood : ∀ r ∈ records, goodRecord r) :
    ∃ st, loadStaff (initStaff o) records = .ok st ∧
      staffId st = some (o :: (idsOfRank "dev" records ++ idsOfRank "sudo" records)) := by
  obtain ⟨st, hload, hsh⟩ :=
    loadStaff_good (initStaff o) o (by simp [initStaff])
      (fun k hk1 _ _ => by simp [initStaff, hk1]) hgood
  exact ⟨st, hload, by simp [staffId, hsh.hOwner, hsh.hDev, hsh.hSud]⟩

/-- Witness for C1: a concrete run with a duplicate `"dev"` id. -/
theorem staffId_after_load_witness :
    ∃ st, loadStaff (initStaff 7)
        [⟨"dev", 1⟩, ⟨"sudo", 2⟩, ⟨"dev", 1⟩] = .ok st ∧
      staffId st = some (7 :: (idsOfRank "dev" [⟨"dev", 1⟩, ⟨"sudo", 2⟩, ⟨"dev", 1⟩] ++
        idsOfRank "sudo" [⟨"dev", 1⟩, ⟨"sudo", 2⟩, ⟨"dev", 1⟩])) :=
  staffId_after_load 7 [⟨"dev", 1⟩, ⟨"sudo", 2⟩, ⟨"dev", 1⟩] (by decide)

/-- **C2.** Loading a second record sequence fully replaces the `"dev"`
and `"sudo"` entries: running `_load_staff` over `r1` and then over `r2`
leaves them equal to what a single `_load_staff` over `r2` produces. -/
theorem load_replaces (o : Int) (r1 r2 : List Record)
    (h1 : ∀ r ∈ r1, goodRecord r) (h2 : ∀ r ∈ r2, goodRecord r) :
    ∃ st1 st12 st2,
      loadStaff (initStaff o) r1 = .ok st1 ∧
      loadStaff st1 r2 = .ok st12 ∧
      loadStaff (initStaff o) r2 = .ok st2 ∧
      st12 "dev" = st2 "dev" ∧ st12 "sudo" = st2 "sudo" := by
  obtain ⟨st1, hl1, hsh1⟩ :=
    loadStaff_good (initStaff o) o (by simp [initStaff])
      (fun k hk1 _ _ => by simp [initStaff, hk1]) h1
  obtain ⟨st12, hl12, hsh12⟩ :=
    loadStaff_good st1 o hsh1.hOwner hsh1.hOther h2
  obtain ⟨st2, hl2, hsh2⟩ :=
    loadStaff_good (initStaff o) o (by simp [initStaff])
      (fun k hk1 _ _ => by simp [initStaff, hk1]) h2
  exact ⟨st1, st12, st2, hl1, hl12, hl2,
    by rw [hsh12.hDev, hsh2.hDev], by rw [hsh12.hSud, hsh2.hSud]⟩

/-- Witness for C2: loading `[dev 1]` then `[sudo 2]` leaves the same
dev/sudo entries as loading `[sudo 2]` alone. -/
theorem load_replaces_witness :
    ∃ st1 st12 st2,
      loadStaff (initStaff 5) [⟨"dev", 1⟩] = .ok st1 ∧
      loadStaff st1 [⟨"sudo", 2⟩] = .ok st12 ∧
      loadStaff (initStaff 5) [⟨"sudo", 2⟩] = .ok st2 ∧
      st12 "dev" = st2 "dev" ∧ st12 "sudo" = st2 "sudo" :=
  load_replaces 5 [⟨"dev", 1⟩] [⟨"sudo", 2⟩] (by decide) (by decide)

/-- Splitting the `_load_staff` loop at a list split point: the loop
over `xs ++ ys` runs the loop over `xs` and, on success, continues over
`ys` from the reached state. -/
theorem loadLoop_append (st : StaffMap) (xs ys : List Record) :
    loadLoop st (xs ++ ys) =
      match loadLoop st xs with
      | .error e => Except.error e
      | .ok st2 => loadLoop st2 ys := by
  induction xs generalizing st with
  | nil => rfl
  | cons r rs ih =>
      rw [List.cons_append]
      show (match loadStep st r with
            | .error e => Except.error e
            | .ok st2 => loadLoop st2 (rs ++ ys)) =
          match (match loadStep st r with
                 | .error e => Except.error e
                 | .ok st2 => loadLoop st2 rs) with
          | .error e => Except.error e
          | .ok st2 => loadLoop st2 ys
      cases loadStep st r with
      | error e => rfl
      | ok st2 => exact ih st2

theorem loadStep_bad {st : StaffMap} {o : Int} {d s : List Int}
    (hst : Shaped st o d s) {r : Record} (hbad : ¬ goodRecord r) :
    loadStep st r =
      .error (if r.rank = "owner" then .attributeError else .keyError) := by
  have hdev : r.rank ≠ "dev" := fun h => hbad (Or.inl h)
  have hsud : r.rank ≠ "sudo" := fun h => hbad (Or.inr h)
  by_cases hr : r.rank = "owner"
  · simp [loadStep, hr, hst.hOwner]
  · simp [loadStep, hst.hOther r.rank hr hdev hsud, hr]

/-- **C9.** A record whose rank is neither `"dev"` nor `"sudo"` makes
`_load_staff` fail at that record: a rank of `"owner"` targets the
integer owner entry (no `append`, an `AttributeError`), any other rank
is a missing dict key (a `KeyError`); the error propagates, and only
the good records before it were processed. -/
theorem loadStaff_bad_rank (o : Int) (pre : List Record) (bad : Record)
    (rest : List Record) (hpre : ∀ r ∈ pre, goodRecord r)
    (hbad : ¬ goodRecord bad) :
    loadStaff (initStaff o) (pre ++ bad :: rest) =
      .error (if bad.rank = "owner" then .attributeError else .keyError) := by
  obtain ⟨st2, hloop, hsh⟩ :=
    loadStaff_good (initStaff o) o (by simp [initStaff])
      (fun k hk1 _ _ => by simp [initStaff, hk1]) hpre
  show loadLoop _ (pre ++ bad :: rest) = _
  rw [loadLoop_append]
  rw [show loadLoop
      (fun k =>
        if k = "dev" then some (.ids []) else
        if k = "sudo" then some (.ids []) else initStaff o k) pre = .ok st2 from hloop]
  show (match loadStep st2 bad with
        | .error e => Except.error e
        | .ok st3 => loadLoop st3 rest) = _
  rw [loadStep_bad hsh hbad]

/-- Witness for C9: a record with rank `"owner"` fails with an
`AttributeError` after one good record. -/
theorem loadStaff_bad_rank_witness :
    loadStaff (initStaff 5) ([⟨"dev", 1⟩] ++ ⟨"owner", 9⟩ :: []) =
      .error (if ("owner" : String) = "owner" then .attributeError else .keyError) :=
  loadStaff_bad_rank 5 [⟨"dev", 1⟩] ⟨"owner", 9⟩ [] (by decide) (by decide)

/-! ## Command registration facade

`on_command` composes pyrogram filter predicates.  A filter is a
predicate over an incoming message; the staff filter also reads the
staff dict, so we evaluate filters against the staff state current at
predicate-evaluation time. -/

/-- The message attributes the composed filters inspect. -/
structure Message where
  senderId : Int
  isPrivate : Bool
  senderIsAdmin : Bool
  botIsAdmin : Bool
  command : Option String
  deriving DecidableEq, Repr

/-- A pyrogram-style filter: a predicate on a message, evaluated
against the staff dict as it is at evaluation time. -/
def MsgFilter : Type := StaffMap → Message → Bool

/-- The `&` combination of two filters: both must accept. -/
def andF (f g : MsgFilter) : MsgFilter := fun st m => f st m && g st m

/-- Modelled from the spec: `cust_filter.command` (the module
`neko_bot/core/cust_filter.py` is not part of the given sources) is the
base "is one of these command names" predicate. -/
def custFilterCommand (cmds : List String) : MsgFilter :=
  fun _ m =>
    match m.command with
    | some c => cmds.contains c
    | none => false

/-- Modelled from the spec: `cust_filter.admin` accepts when the sender
is a chat administrator; admin status is meaningless in private chat,
so private-chat messages are rejected. -/
def custFilterAdmin : MsgFilter := fun _ m => !m.isPrivate && m.senderIsAdmin

/-- Modelled from the spec: `cust_filter.bot_admin` accepts when the
bot itself is a chat administrator, again never in private chat. -/
def custFilterBotAdmin : MsgFilter := fun _ m => !m.isPrivate && m.botIsAdmin

/-- Modelled from the spec: `cust_filter.staff` accepts when the
sender's identifier is in the current `staff_id` result. -/
def custFilterStaff : MsgFilter :=
  fun st m =>
    match staffId st with
    | some l => l.contains m.senderId
    | none => false

/-- The composite filter built by the `on_command` decorator:
`_filters = cust_filter.command(commands=cmd)`, conjoined with the
caller-supplied filter when present, then with the admin pair when
`admin`, else with the staff filter when `staff`. -/
def onCommandFilter (cmd : List String) (fo : Option MsgFilter)
    (admin staffOnly : Bool) : MsgFilter :=
  let f1 := custFilterCommand cmd
  let f2 :=
    match fo with
    | some g => andF f1 g
    | none => f1
  if admin then andF (andF f2 custFilterAdmin) custFilterBotAdmin
  else if staffOnly then andF f2 custFilterStaff
  else f2

/-- The base predicate before the permission branch: the command filter
conjoined with the caller-supplied filter when present. -/
def baseFilter (cmd : List String) (fo : Option MsgFilter) : MsgFilter :=
  match fo with
  | some g => andF (custFilterCommand cmd) g
  | none => custFilterCommand cmd

/-- **C3.** With `admin=True` the registered predicate is the command
predicate (and optional extra filter) conjoined with the sender-admin
and bot-admin filters; it rejects non-administrator senders and all
private-chat messages, and the staff filter is never conjoined,
whatever the `staff` argument. -/
theorem onCommand_admin (cmd : List String) (fo : Option MsgFilter) (b : Bool) :
    onCommandFilter cmd fo true b =
      andF (andF (baseFilter cmd fo) custFilterAdmin) custFilterBotAdmin
    ∧ (∀ st m, m.isPrivate = true ∨ m.senderIsAdmin = false →
        onCommandFilter cmd fo true b st m = false)
    ∧ onCommandFilter cmd fo true b = onCommandFilter cmd fo true false := by
  refine ⟨rfl, ?_, rfl⟩
  intro st m h
  have : custFilterAdmin st m = false := by
    rcases h with h | h <;> simp [custFilterAdmin, h]
  show (andF (andF (baseFilter cmd fo) custFilterAdmin) custFilterBotAdmin) st m = false
  simp [andF, this]

/-- Witness for C3: a private-chat message is rejected even with both
`admin` and `staff` requested. -/
theorem onCommand_admin_witness :
    onCommandFilter ["ban"] none true true (initStaff 5)
      ⟨1, true, true, true, some "ban"⟩ = false :=
  (onCommand_admin ["ban"] none true).2.1 (initStaff 5)
    ⟨1, true, true, true, some "ban"⟩ (Or.inl rfl)

/-- **C4.** With `staff=True` and `admin` falsy the registered
predicate is the base predicate conjoined with the staff filter, and it
accepts a message only when the sender's identifier is in the
`staff_id` list computed from the staff dict current at evaluation time
(the predicate reads the staff state passed in at each evaluation, so a
later `_load_staff` changes which senders are accepted). -/
theorem onCommand_staff (cmd : List String) (fo : Option MsgFilter) :
    onCommandFilter cmd fo false true = andF (baseFilter cmd fo) custFilterStaff
    ∧ (∀ st m, onCommandFilter cmd fo false true st m = true →
        ∃ l, staffId st = some l ∧ m.senderId ∈ l) := by
  refine ⟨rfl, ?_⟩
  intro st m h
  have h2 : custFilterStaff st m = true := by
    have := h
    rw [show onCommandFilter cmd fo false true = andF (baseFilter cmd fo) custFilterStaff
      from rfl] at this
    exact (Bool.and_eq_true _ _ |>.mp this).2
  rcases hst : staffId st with _ | l
  · rw [custFilterStaff, hst] at h2; exact absurd h2 (by simp)
  · refine ⟨l, rfl, ?_⟩
    rw [custFilterStaff, hst] at h2
    simpa using h2

/-- Witness for C4: a staff-only command accepts a sender listed as a
dev in the staff dict. -/
theorem onCommand_staff_witness :
    ∃ l, staffId
        (fun k =>
          if k = "owner" then some (.ownerId 5) else
          if k = "dev" then some (.ids [1]) else
          if k = "sudo" then some (.ids []) else none) = some l ∧ (1 : Int) ∈ l :=
  (onCommand_staff ["ban"] none).2
    (fun k =>
      if k = "owner" then some (.ownerId 5) else
      if k = "dev" then some (.ids [1]) else
      if k = "sudo" then some (.ids []) else none)
    ⟨1, false, false, false, some "ban"⟩ rfl

/-! ## Shutdown sequence

The `finalized` coroutine of `begin` runs, under the lock: cancel the
tracked `tasks`; if `self.is_initialized`, `await self.stop()` (which
stops the client, disconnects the database and stops the pool); cancel
every task of `asyncio.all_tasks()` other than the current one; shut
down async generators; stop the loop.  We embed its effect as the trace
of actions it performs, tasks being named by numbers. -/

/-- One observable action of the shutdown sequence. -/
inductive Action where
  | cancelTracked : Nat → Action
  | stopClient
  | disconnectDb
  | stopPool
  | cancelOther : Nat → Action
  | shutdownAsyncgens
  | stopLoop
  deriving DecidableEq, Repr

/-- `NekoBot.stop`: `await super().stop()`, then
`await self.disconnect_db()`, then `await pool.stop()`. -/
def stopActions : List Action := [.stopClient, .disconnectDb, .stopPool]

/-- The trace of the body of `finalized`, given the tracked task list,
the `is_initialized` flag, the tasks `asyncio.all_tasks()` returns and
the current (shutdown) task. -/
def finalizedActions (tracked : List Nat) (isInit : Bool)
    (allTasks : List Nat) (cur : Nat) : List Action :=
  tracked.map Action.cancelTracked
  ++ (if isInit then stopActions else [])
  ++ (allTasks.filter (fun t => t ≠ cur)).map Action.cancelOther
  ++ [Action.shutdownAsyncgens, Action.stopLoop]

/-- **C5.** The shutdown steps occur in exactly this order: cancel the
tracked tasks, then (only if the client is initialized) stop the client
which disconnects the database and stops the pool, then cancel every
other scheduled task except the shutdown task itself, then shut down
async generators, then stop the loop; when the client reports
not-initialized, neither the client nor the database is stopped. -/
theorem finalized_order (tracked : List Nat) (isInit : Bool)
    (allTasks : List Nat) (cur : Nat) :
    finalizedActions tracked isInit allTasks cur =
      tracked.map Action.cancelTracked
      ++ (if isInit then [Action.stopClient, Action.disconnectDb, Action.stopPool] else [])
      ++ (allTasks.filter (fun t => t ≠ cur)).map Action.cancelOther
      ++ [Action.shutdownAsyncgens, Action.stopLoop]
    ∧ (isInit = false →
        Action.stopClient ∉ finalizedActions tracked isInit allTasks cur ∧
        Action.disconnectDb ∉ finalizedActions tracked isInit allTasks cur ∧
        Action.stopPool ∉ finalizedActions tracked isInit allTasks cur) := by
  refine ⟨rfl, ?_⟩
  intro h
  subst h
  simp [finalizedActions]

/-- Witness for C5: with the client not initialized, no stop action
appears in a concrete shutdown trace. -/
theorem finalized_order_witness :
    Action.stopClient ∉ finalizedActions [] false [0, 1] 1 ∧
    Action.disconnectDb ∉ finalizedActions [] false [0, 1] 1 ∧
    Action.stopPool ∉ finalizedActions [] false [0, 1] 1 :=
  (finalized_order [] false [0, 1] 1).2 rfl

/-- The tracked-task list of `begin`:
`tasks: List[asyncio.Task] = []`, to which no statement of `begin` ever
appends. -/
def beginTrackedTasks : List Nat := []

/-- **C10.** `begin`'s tracked-task list is created empty and never
grows, so the first cancellation phase of every shutdown run cancels
nothing and the shutdown trace is the same as with an empty first
phase. -/
theorem begin_no_tracked (isInit : Bool) (allTasks : List Nat) (cur : Nat) :
    beginTrackedTasks = []
    ∧ (∀ t, Action.cancelTracked t ∉ finalizedActions beginTrackedTasks isInit allTasks cur)
    ∧ finalizedActions beginTrackedTasks isInit allTasks cur =
        (if isInit then stopActions else [])
        ++ (allTasks.filter (fun t => t ≠ cur)).map Action.cancelOther
        ++ [Action.shutdownAsyncgens, Action.stopLoop] := by
  refine ⟨rfl, ?_, by simp [finalizedActions, beginTrackedTasks]⟩
  intro t
  cases isInit <;> simp [finalizedActions, beginTrackedTasks, stopActions]

/-! ## Mutual exclusion of shutdown runs

Each delivered signal schedules one `shutdown(sig)` task; its body runs
`finalized`, whose cancellation-and-stop steps execute inside
`async with lock`.  We model the scheduled shutdown tasks and the lock:
a task acquires the free lock to enter the critical section (the steps
above) and releases it when done.  Scheduling is cooperative but the
model lets any enabled task move at every step. -/

/-- The phase of one scheduled shutdown task. -/
inductive TaskPhase where
  | ready
  | critical
  | finished
  deriving DecidableEq, Repr

/-- The lock state and the phases of the scheduled shutdown tasks. -/
structure ShutdownSys where
  lockHeld : Option Nat
  phases : List TaskPhase
  deriving DecidableEq, Repr

/-- One scheduler step: task `i` acquires the free lock and enters the
cancellation-and-stop steps, or finishes them and releases the lock. -/
inductive SysStep : ShutdownSys → ShutdownSys → Prop where
  | acquire (s : ShutdownSys) (i : Nat) (hp : s.phases[i]? = some .ready)
      (hl : s.lockHeld = none) :
      SysStep s ⟨some i, s.phases.set i .critical⟩
  | release (s : ShutdownSys) (i : Nat) (hp : s.phases[i]? = some .critical)
      (hl : s.lockHeld = some i) :
      SysStep s ⟨none, s.phases.set i .finished⟩

/-- The initial state after `n` signals each scheduled a shutdown task:
lock free, every task ready. -/
def sysInit (n : Nat) : ShutdownSys := ⟨none, List.replicate n .ready⟩

/-- The states reachable from `n` scheduled shutdown tasks. -/
inductive SysReach (n : Nat) : ShutdownSys → Prop where
  | init : SysReach n (sysInit n)
  | step {s s2 : ShutdownSys} : SysReach n s → SysStep s s2 → SysReach n s2

/-- The lock invariant: a task inside the critical section holds the
lock. -/
def LockInv (s : ShutdownSys) : Prop :=
  ∀ i, s.phases[i]? = some .critical → s.lockHeld = some i

theorem lockInv_step {s s2 : ShutdownSys} (hst : SysStep s s2)
    (hinv : LockInv s) : LockInv s2 := by
  cases hst with
  | acquire i hp hl =>
      intro j hj
      replace hj : (s.phases.set i TaskPhase.critical)[j]? =
        some TaskPhase.critical := hj
      by_cases hij : i = j
      · exact congrArg some hij
      · rw [List.getElem?_set_ne hij] at hj
        have hlock := hinv j hj
        rw [hl] at hlock
        exact absurd hlock (by simp)
  | release i hp hl =>
      intro j hj
      replace hj : (s.phases.set i TaskPhase.finished)[j]? =
        some TaskPhase.critical := hj
      by_cases hij : i = j
      · subst hij
        have hlen : i < s.phases.length := by
          by_contra hge
          rw [List.getElem?_eq_none (Nat.le_of_not_lt hge)] at hp
          exact absurd hp (by simp)
        rw [List.getElem?_set_self hlen] at hj
        exact absurd hj (by simp)
      · rw [List.getElem?_set_ne hij] at hj
        have hlock := hinv j hj
        rw [hl] at hlock
        exact absurd (Option.some.inj hlock) hij

theorem sysReach_lockInv {n : Nat} {s : ShutdownSys} (h : SysReach n s) :
    LockInv s := by
  induction h with
  | init =>
      intro i hi
      replace hi : (List.replicate n TaskPhase.ready)[i]? =
        some TaskPhase.critical := hi
      rw [List.getElem?_replicate] at hi
      by_cases hlt : i < n
      · rw [if_pos hlt] at hi; exact absurd hi (by simp)
      · rw [if_neg hlt] at hi; exact absurd hi (by simp)
  | step hr hst ih => exact lockInv_step hst ih

/-- **C6.** At most one shutdown run is ever inside the
cancellation-and-stop steps: in every state reachable from any number
of delivered signals, two tasks in the critical section are the same
task, because the steps run under the single mutual-exclusion lock. -/
theorem shutdown_mutex (n : Nat) (s : ShutdownSys) (h : SysReach n s)
    (i j : Nat) (hi : s.phases[i]? = some .critical)
    (hj : s.phases[j]? = some .critical) : i = j := by
  have hinv := sysReach_lockInv h
  have h1 := hinv i hi
  have h2 := hinv j hj
  rw [h1] at h2
  exact Option.some.inj h2

/-- Witness for C6: after two signals and one lock acquisition, the
single critical task is unique. -/
theorem shutdown_mutex_witness : (0 : Nat) = 0 :=
  shutdown_mutex 2 ⟨some 0, [.critical, .ready]⟩
    (SysReach.step SysReach.init (SysStep.acquire (sysInit 2) 0 rfl rfl))
    0 0 rfl rfl

/-! ## Error handling of `begin`

`begin` runs `self.loop.run_until_complete(self.start())` outside any
handler, then a `try` block running the supplied coroutine (or idling)
and `finalized`, with `except (asyncio.CancelledError, RuntimeError):
pass` and `finally: self.loop.close()`.  We embed the exception routed
through this structure. -/

/-- A Python exception: the two types `begin` names, or any other. -/
inductive PyExc where
  | cancelledError
  | runtimeError
  | other : String → PyExc
  deriving DecidableEq, Repr

/-- Whether `except (asyncio.CancelledError, RuntimeError)` catches the
exception. -/
def caughtByBegin : PyExc → Bool
  | .cancelledError => true
  | .runtimeError => true
  | .other _ => false

/-- What a call of `begin` leaves behind: the exception it re-raises,
if any, and whether `self.loop.close()` ran. -/
structure BeginOutcome where
  raised : Option PyExc
  loopClosed : Bool
  deriving DecidableEq, Repr

/-- The exception flow of `begin`, given the exception (if any) the
startup phase raises and the exception (if any) the run-and-shutdown
phase inside the `try` block raises: a startup error propagates before
the `try`/`finally` is entered; inside it, only the two named exception
types are suppressed, and `finally` closes the loop either way. -/
def beginOutcome (startupExc runExc : Option PyExc) : BeginOutcome :=
  match startupExc with
  | some e => ⟨some e, false⟩
  | none =>
      match runExc with
      | none => ⟨none, true⟩
      | some e => if caughtByBegin e then ⟨none, true⟩ else ⟨some e, true⟩

/-- Counterexample to C7: an exception of any type other than
`asyncio.CancelledError` and `RuntimeError` raised in the
run-and-shutdown phase is not suppressed — `begin` re-raises it. -/
theorem begin_error_counterexample :
    (beginOutcome none (some (.other "ValueError"))).raised =
      some (.other "ValueError") := by
  rfl

/-- **C7 (amended).** Every startup-phase error propagates out of
`begin` uncaught, with the loop left unclosed; in the run-and-shutdown
phase, `asyncio.CancelledError` and `RuntimeError` are caught and
suppressed, while an exception of any other type propagates — though
the `finally` closes the loop in every run-phase case. -/
theorem begin_error_handling (e : PyExc) (re : Option PyExc) (s : String) :
    beginOutcome (some e) re = ⟨some e, false⟩
    ∧ beginOutcome none none = ⟨none, true⟩
    ∧ beginOutcome none (some .cancelledError) = ⟨none, true⟩
    ∧ beginOutcome none (some .runtimeError) = ⟨none, true⟩
    ∧ beginOutcome none (some (.other s)) = ⟨some (.other s), true⟩
    ∧ (beginOutcome none (some e)).loopClosed = true := by
  refine ⟨rfl, rfl, rfl, rfl, rfl, ?_⟩
  cases e <;> rfl

/-! ## Constructor keyword arguments

`__init__(self, **kwargs)` immediately rebinds `kwargs` to a dict built
only from configuration, so the client configuration passed to
`super().__init__(**kwargs)` never depends on the caller's keyword
arguments. -/

/-- The configuration values `__init__` reads. -/
structure Config where
  apiId : Nat
  apiHash : String
  botToken : String
  ownerId : Int
  deriving DecidableEq, Repr

/-- A keyword-argument value: the dict mixes an integer API id with
string values. -/
inductive KwVal where
  | natVal : Nat → KwVal
  | strVal : String → KwVal
  deriving DecidableEq, Repr

/-- The keyword arguments `__init__` forwards to `super().__init__`:
the incoming `kwargs` is rebound to
`{"api_id": ..., "api_hash": ..., "bot_token": ..., "session_name": ":memory:"}`
before use, so the caller-supplied dict is discarded. -/
def nekobotInitKwargs (cfg : Config) (kwargs : List (String × KwVal)) :
    List (String × KwVal) :=
  let _ := kwargs
  [("api_id", .natVal cfg.apiId),
   ("api_hash", .strVal cfg.apiHash),
   ("bot_token", .strVal cfg.botToken),
   ("session_name", .strVal ":memory:")]

/-- **C8.** The constructor is noninterferent in its keyword arguments:
any two caller-supplied keyword-argument sets yield the identical
client configuration, rebuilt from configuration with session name
`":memory:"`. -/
theorem init_kwargs_noninterference (cfg : Config)
    (k1 k2 : List (String × KwVal)) :
    nekobotInitKwargs cfg k1 = nekobotInitKwargs cfg k2
    ∧ nekobotInitKwargs cfg k1 =
        [("api_id", .natVal cfg.apiId),
         ("api_hash", .strVal cfg.apiHash),
         ("bot_token", .strVal cfg.botToken),
         ("session_name", .strVal ":memory:")] :=
  ⟨rfl, rfl⟩

end NekoBot
